import Mathlib

/-!
Verification of the notion2memos migration pipeline.

The Go source is shallowly embedded: strings manipulated at the byte or
rune level become `List Char`, maps become association or membership lists,
network calls become oracle functions stored in an `Env` record, and the
orchestrator's effects become explicit state passing.  Where the migrator
source has two historical variants, the fuller (tags / caching / splitting)
variant is embedded, as the specification designates it canonical.
-/

namespace N2M

/-! ## Tag sanitization (internal/notion/client.go, sanitizeTag) -/

/-- Allowed tag characters: `[A-Za-z0-9_-]` (the Go rune filter). -/
def isTagChar (c : Char) : Bool :=
  ('a' ≤ c && c ≤ 'z') || ('A' ≤ c && c ≤ 'Z') || ('0' ≤ c && c ≤ '9') ||
    c = '_' || c = '-'

/-- The two `strings.ReplaceAll` passes: space and dot become underscore. -/
def replaceSpaceDot (c : Char) : Char :=
  if c = ' ' ∨ c = '.' then '_' else c

/-- `sanitizeTag`: replace space and '.' by '_', then keep only
`[A-Za-z0-9_-]` (Go iterates runes; we iterate `Char`s). -/
def sanitizeTag (tag : List Char) : List Char :=
  (tag.map replaceSpaceDot).filter isTagChar

/-- String-level wrapper used by the renderer. -/
def sanitizeTagS (tag : String) : String :=
  ⟨sanitizeTag tag.data⟩

/-- Single-character summary of `sanitizeTag`: space and dot map to '_',
allowed characters are kept, everything else is dropped. -/
def sanitizeStep (c : Char) : Option Char :=
  if c = ' ' ∨ c = '.' then some '_'
  else if isTagChar c then some c else none

/-- What the claim's words describe: every whitespace character (not just
space) and '.' map to '_'; characters outside `[A-Za-z0-9_-]` are dropped. -/
def sanitizeTagSpec (tag : List Char) : List Char :=
  (tag.map (fun c => if c.isWhitespace ∨ c = '.' then '_' else c)).filter isTagChar

lemma isTagChar_replaceSpaceDot_of_isTagChar {c : Char} (h : isTagChar c = true) :
    replaceSpaceDot c = c := by
  unfold replaceSpaceDot
  split
  · rename_i hc
    exfalso
    rcases hc with hc | hc <;> subst hc <;> exact absurd h (by decide)
  · rfl

lemma filter_map_replace_of_all_tagChar {l : List Char}
    (h : ∀ c ∈ l, isTagChar c = true) :
    (l.map replaceSpaceDot).filter isTagChar = l := by
  induction l with
  | nil => rfl
  | cons c rest ih =>
    have hc : isTagChar c = true := h c (List.mem_cons_self c rest)
    have hrep := isTagChar_replaceSpaceDot_of_isTagChar hc
    simp only [List.map_cons, hrep, List.filter_cons, hc, if_true]
    rw [ih (fun x hx => h x (List.mem_cons_of_mem c hx))]

lemma sanitizeTag_eq_filterMap (t : List Char) :
    sanitizeTag t = t.filterMap sanitizeStep := by
  induction t with
  | nil => rfl
  | cons c rest ih =>
    unfold sanitizeTag at *
    by_cases hc : c = ' ' ∨ c = '.'
    · have h1 : replaceSpaceDot c = '_' := by unfold replaceSpaceDot; simp [hc]
      have h2 : sanitizeStep c = some '_' := by unfold sanitizeStep; simp [hc]
      simp [List.filterMap_cons, h1, h2, List.filter_cons, ih]
      decide
    · have h1 : replaceSpaceDot c = c := by unfold replaceSpaceDot; simp [hc]
      have h2 : sanitizeStep c = if isTagChar c then some c else none := by
        unfold sanitizeStep; simp [hc]
      by_cases hk : isTagChar c
      · simp [List.filterMap_cons, h1, h2, hk, List.filter_cons, ih]
      · simp [List.filterMap_cons, h1, h2, hk, List.filter_cons, ih]

lemma mem_sanitizeTag_isTagChar {c : Char} {t : List Char}
    (h : c ∈ sanitizeTag t) : isTagChar c = true := by
  unfold sanitizeTag at h
  exact (List.mem_filter.mp h).2

lemma sanitizeTag_idem (t : List Char) :
    sanitizeTag (sanitizeTag t) = sanitizeTag t := by
  exact filter_map_replace_of_all_tagChar (fun c hc => mem_sanitizeTag_isTagChar hc)

/-- Claim C6 counterexample: the tab character is whitespace, and the
claim's words would map it to '_'; the code drops it instead, so
sanitization does not map every whitespace character to '_'. -/
theorem c6_tab_counterexample :
    Char.isWhitespace '\t' = true ∧
    sanitizeTagSpec ['\t'] = ['_'] ∧
    sanitizeTag ['\t'] = [] ∧
    sanitizeTag ['\t'] ≠ sanitizeTagSpec ['\t'] := by
  refine ⟨by decide, by decide, by decide, by decide⟩

/-- Claim C6 (amended): sanitization maps every space and '.' (but not
other whitespace, which is dropped) to '_', keeps characters in
`[A-Za-z0-9_-]`, drops everything else, and is idempotent. -/
theorem c6_sanitize_amended :
    (∀ t, sanitizeTag t = t.filterMap sanitizeStep) ∧
    sanitizeStep ' ' = some '_' ∧
    sanitizeStep '.' = some '_' ∧
    (∀ c, c.isWhitespace = true → c ≠ ' ' → sanitizeStep c = none) ∧
    (∀ c, isTagChar c = true → sanitizeStep c = some c) ∧
    (∀ c, ¬(c = ' ' ∨ c = '.') → isTagChar c = false → sanitizeStep c = none) ∧
    (∀ t, sanitizeTag (sanitizeTag t) = sanitizeTag t) := by
  refine ⟨sanitizeTag_eq_filterMap, by decide, by decide, ?_, ?_, ?_, sanitizeTag_idem⟩
  · intro c hws hne
    unfold sanitizeStep
    have hcases : c = ' ' ∨ c = '\t' ∨ c = '\r' ∨ c = '\n' := by
      revert hws
      unfold Char.isWhitespace
      simp
      tauto
    rcases hcases with h | h | h | h
    · exact absurd h hne
    all_goals subst h; decide
  · intro c hk
    unfold sanitizeStep
    have hne : ¬(c = ' ' ∨ c = '.') := by
      intro hc
      rcases hc with hc | hc <;> subst hc <;> exact absurd hk (by decide)
    simp [hne, hk]
  · intro c hne hk
    unfold sanitizeStep
    simp [hne, hk]

/-! ## Data model (internal/notion/client.go) -/

/-- Modelled from the spec: a document's parent reference is one of a
collection (database), another document (page), or none (workspace).  The
Go accessors over the raw `Parent` map are not under src/; §3 of the spec
fixes the reference as exclusive. -/
inductive ParentRef where
  | database (id : String)
  | page (id : String)
  | workspace
deriving DecidableEq

/-- A text-content payload with an optional embedded link. -/
structure TextContent where
  content : String
  link : Option String
deriving DecidableEq

/-- Go `Annotations` (renamed: the original name collides with reserved
words of the development environment): the inline-formatting flags. -/
structure Annots where
  bold : Bool
  italic : Bool
  strikethrough : Bool
  underline : Bool
  code : Bool
  color : String
deriving DecidableEq

/-- Go `RichText`: an inline run. -/
structure RichText where
  type : String
  text : Option TextContent
  annots : Option Annots
  plainText : String
  href : Option String
deriving DecidableEq

/-- Go `Property`: a page property (only title payloads are used). -/
structure Property where
  id : String
  type : String
  title : List RichText
deriving DecidableEq

/-- Go `Page`.  `Properties` is a Go map; the model keeps insertion order
in an association list (`GetPageTitle` iterates the map; the list order is
its determinization).  The `Parent` map is the spec-modelled `ParentRef`. -/
structure Page where
  id : String
  createdTime : String
  parent : ParentRef
  properties : List (String × Property)
deriving DecidableEq

/-- Modelled from the spec: a collection has an identifier and a display
title (`GetDatabaseTitle`, not under src/, returns the latter). -/
structure Database where
  id : String
  title : String
deriving DecidableEq

structure ParagraphBlock where
  richText : List RichText
  color : String
deriving DecidableEq

structure HeadingBlock where
  richText : List RichText
  color : String
deriving DecidableEq

structure ListBlock where
  richText : List RichText
  color : String
deriving DecidableEq

structure ToDoBlock where
  richText : List RichText
  checked : Bool
  color : String
deriving DecidableEq

structure CodeBlock where
  richText : List RichText
  language : String
deriving DecidableEq

/-- Go `Block`: a type tag plus one optional payload per block kind. -/
structure Block where
  type : String
  paragraph : Option ParagraphBlock := none
  heading1 : Option HeadingBlock := none
  heading2 : Option HeadingBlock := none
  heading3 : Option HeadingBlock := none
  bulletedList : Option ListBlock := none
  numberedList : Option ListBlock := none
  toDo : Option ToDoBlock := none
  code : Option CodeBlock := none
deriving DecidableEq

/-- `GetPageTitle`: first property of type "title" with a nonempty title
list yields its first run's plain text; otherwise "Untitled". -/
def getPageTitle (p : Page) : String :=
  match p.properties.find? (fun kv => kv.2.type == "title" && !kv.2.title.isEmpty) with
  | some kv =>
    match kv.2.title with
    | rt :: _ => rt.plainText
    | [] => "Untitled"
  | none => "Untitled"

/-! ## Content renderer (internal/notion/client.go, markdown side) -/

/-- `richTextToMarkdown`: concatenate runs, skipping empty payloads;
markup order is inline code, bold, italic, strikethrough; a run-level
href wins over a link inside the text payload. -/
def richTextToMarkdown (rts : List RichText) : String :=
  rts.foldl
    (fun acc rt =>
      if rt.plainText = "" then acc
      else
        let t := rt.plainText
        let t := match rt.annots with
          | some a =>
            let t := if a.code then "`" ++ t ++ "`" else t
            let t := if a.bold then "**" ++ t ++ "**" else t
            let t := if a.italic then "*" ++ t ++ "*" else t
            if a.strikethrough then "~~" ++ t ++ "~~" else t
          | none => t
        let t :=
          if (rt.href.getD "") ≠ "" then "[" ++ t ++ "](" ++ rt.href.getD "" ++ ")"
          else match rt.text with
            | some tc =>
              match tc.link with
              | some u => "[" ++ t ++ "](" ++ u ++ ")"
              | none => t
            | none => t
        acc ++ t)
    ""

/-- `richTextToPlainText`: unformatted concatenation. -/
def richTextToPlainText (rts : List RichText) : String :=
  rts.foldl (fun acc rt => acc ++ rt.plainText) ""

/-- `blockToMarkdown`: one block to its markdown line(s). -/
def blockToMarkdown (b : Block) : String :=
  if b.type = "paragraph" then
    match b.paragraph with
    | some pb =>
      let t := richTextToMarkdown pb.richText
      if t ≠ "" then t ++ "\n" else ""
    | none => ""
  else if b.type = "heading_1" then
    match b.heading1 with
    | some h => "## " ++ richTextToMarkdown h.richText ++ "\n"
    | none => ""
  else if b.type = "heading_2" then
    match b.heading2 with
    | some h => "### " ++ richTextToMarkdown h.richText ++ "\n"
    | none => ""
  else if b.type = "heading_3" then
    match b.heading3 with
    | some h => "#### " ++ richTextToMarkdown h.richText ++ "\n"
    | none => ""
  else if b.type = "bulleted_list_item" then
    match b.bulletedList with
    | some lb => "- " ++ richTextToMarkdown lb.richText ++ "\n"
    | none => ""
  else if b.type = "numbered_list_item" then
    match b.numberedList with
    | some lb => "1. " ++ richTextToMarkdown lb.richText ++ "\n"
    | none => ""
  else if b.type = "to_do" then
    match b.toDo with
    | some td =>
      let checkbox := if td.checked then "- [x]" else "- [ ]"
      checkbox ++ " " ++ richTextToMarkdown td.richText ++ "\n"
    | none => ""
  else if b.type = "code" then
    match b.code with
    | some cb =>
      let lang := if cb.language = "" then "text" else cb.language
      "```" ++ lang ++ "\n" ++ richTextToPlainText cb.richText ++ "\n```\n"
    | none => ""
  else ""

/-- Collaborator model for Go's time library: RFC3339 parsing, the
metadata-comment formatter, and the current-time fallback. -/
structure TimeModel where
  parse : String → Option Int
  formatMeta : Int → String
  now : Int

/-- Go `strings.TrimSpace` (whitespace at both ends). -/
def trimSpace (s : String) : String :=
  ⟨((s.data.dropWhile Char.isWhitespace).reverse.dropWhile Char.isWhitespace).reverse⟩

/-- `BlocksToMarkdown`: title heading, tag line, metadata comment, then
one rendered block per line (empty renders skipped), trimmed. -/
def blocksToMarkdown (tm : TimeModel) (blocks : List Block)
    (createdTime pageTitle : String) (tags : List String) : String :=
  let md := if pageTitle ≠ "" then "# " ++ pageTitle ++ "\n\n" else ""
  let md :=
    if tags ≠ [] then
      md ++ String.join (tags.map (fun t => "#" ++ sanitizeTagS t ++ " ")) ++ "\n\n"
    else md
  let md :=
    if createdTime ≠ "" then
      match tm.parse createdTime with
      | some ts => md ++ "<!-- Created: " ++ tm.formatMeta ts ++ " -->\n\n"
      | none => md
    else md
  let md := blocks.foldl
    (fun acc b =>
      let s := blockToMarkdown b
      if s ≠ "" then acc ++ s ++ "\n" else acc)
    md
  trimSpace md

/-- Claim C8: heading blocks render one level deeper than the source
level — source level 1 becomes "## ", level 2 becomes "### ", level 3
becomes "#### ". -/
theorem c8_heading_shift (b : Block) (h : HeadingBlock) :
    (b.type = "heading_1" → b.heading1 = some h →
      blockToMarkdown b = "## " ++ richTextToMarkdown h.richText ++ "\n") ∧
    (b.type = "heading_2" → b.heading2 = some h →
      blockToMarkdown b = "### " ++ richTextToMarkdown h.richText ++ "\n") ∧
    (b.type = "heading_3" → b.heading3 = some h →
      blockToMarkdown b = "#### " ++ richTextToMarkdown h.richText ++ "\n") := by
  refine ⟨?_, ?_, ?_⟩ <;> intro ht hp <;> unfold blockToMarkdown <;> rw [ht] <;>
    simp [hp]

/-- Witness for C8 at concrete heading blocks of each level. -/
theorem c8_heading_shift_witness :
    blockToMarkdown { type := "heading_1", heading1 := some ⟨[], ""⟩ } =
      "## " ++ richTextToMarkdown [] ++ "\n" ∧
    blockToMarkdown { type := "heading_2", heading2 := some ⟨[], ""⟩ } =
      "### " ++ richTextToMarkdown [] ++ "\n" ∧
    blockToMarkdown { type := "heading_3", heading3 := some ⟨[], ""⟩ } =
      "#### " ++ richTextToMarkdown [] ++ "\n" :=
  ⟨(c8_heading_shift { type := "heading_1", heading1 := some ⟨[], ""⟩ } ⟨[], ""⟩).1 rfl rfl,
   (c8_heading_shift { type := "heading_2", heading2 := some ⟨[], ""⟩ } ⟨[], ""⟩).2.1 rfl rfl,
   (c8_heading_shift { type := "heading_3", heading3 := some ⟨[], ""⟩ } ⟨[], ""⟩).2.2 rfl rfl⟩

/-! ## Title filtering (internal/migrate/migrator.go) -/

/-- `filterPagesByTitle`: keep pages whose extracted title is a member of
the supplied titles (the Go code builds a set from the list; membership in
the list is the same test). -/
def filterPagesByTitle (pages : List Page) (titles : List String) : List Page :=
  if titles.isEmpty then pages
  else pages.filter (fun p => titles.contains (getPageTitle p))

/-- Claim C9: with a nonempty allow-list, title filtering keeps exactly
the pages whose title equals (string equality: case-sensitive, whole
string) one of the supplied titles, preserving their order. -/
theorem c9_title_filter (pages : List Page) (titles : List String)
    (ht : titles ≠ []) :
    (∀ p, p ∈ filterPagesByTitle pages titles ↔
      p ∈ pages ∧ ∃ t ∈ titles, getPageTitle p = t) ∧
    (filterPagesByTitle pages titles).Sublist pages := by
  constructor
  · intro p
    unfold filterPagesByTitle
    rw [if_neg (by simpa using ht)]
    rw [List.mem_filter]
    constructor
    · rintro ⟨hm, hc⟩
      refine ⟨hm, getPageTitle p, ?_, rfl⟩
      simpa using hc
    · rintro ⟨hm, t, htm, hteq⟩
      refine ⟨hm, ?_⟩
      subst hteq
      simpa using htm
  · unfold filterPagesByTitle
    rw [if_neg (by simpa using ht)]
    exact List.filter_sublist pages

/-- Witness for C9: one matching and one non-matching page. -/
theorem c9_title_filter_witness :
    (["A"] : List String) ≠ [] ∧
    ((∀ p, p ∈ filterPagesByTitle [] ["A"] ↔
        p ∈ ([] : List Page) ∧ ∃ t ∈ ["A"], getPageTitle p = t) ∧
      (filterPagesByTitle [] ["A"]).Sublist []) :=
  ⟨by decide, c9_title_filter [] ["A"] (by decide)⟩

/-! ## Paginated fetching (internal/notion/client.go)

`SearchPages` and `RetrieveBlocks` run the same cursor loop: issue a call,
append `Results`, stop when `HasMore` is false, otherwise thread
`NextCursor` into the next call.  The source service is modelled as the
finite sequence of responses the loop receives, in order; the loop's
accumulation depends only on `results` and `hasMore` of that sequence
(the cursor is threaded opaquely into requests and never inspected). -/

/-- One page of results from the source service. -/
structure PageResp (α : Type) where
  results : List α
  nextCursor : Option String
  hasMore : Bool

/-- The cursor loop's accumulation over the received responses. -/
def paginate {α : Type} : List (PageResp α) → List α
  | [] => []
  | r :: rest => if r.hasMore then r.results ++ paginate rest else r.results

/-- `SearchPages` accumulation (instantiated at `Page`). -/
def searchPagesAcc (resps : List (PageResp Page)) : List Page :=
  paginate resps

/-- `RetrieveBlocks` accumulation (instantiated at `Block`). -/
def retrieveBlocksAcc (resps : List (PageResp Block)) : List Block :=
  paginate resps

/-- A source that serves `items` paginated: every page holds at most 100
results, every page but the last reports `hasMore`, the last does not, and
the pages concatenate to `items` in order. -/
inductive WellPaged {α : Type} : List (PageResp α) → List α → Prop where
  | last (r : PageResp α) (h : r.hasMore = false)
      (hlen : r.results.length ≤ 100) : WellPaged [r] r.results
  | cons (r : PageResp α) (rest : List (PageResp α)) (items : List α)
      (h : r.hasMore = true) (hlen : r.results.length ≤ 100)
      (ht : WellPaged rest items) : WellPaged (r :: rest) (r.results ++ items)

lemma paginate_of_wellPaged {α : Type} {resps : List (PageResp α)}
    {items : List α} (h : WellPaged resps items) : paginate resps = items := by
  induction h with
  | last r hr hlen => simp [paginate, hr]
  | cons r rest items hr hlen ht ih => simp [paginate, hr, ih]

lemma wellPaged_map_cursor {α : Type} {resps : List (PageResp α)}
    {items : List α} (f : Option String → Option String)
    (h : WellPaged resps items) :
    WellPaged (resps.map (fun r => { r with nextCursor := f r.nextCursor })) items := by
  induction h with
  | last r hr hlen => exact WellPaged.last _ hr hlen
  | cons r rest items hr hlen ht ih => exact WellPaged.cons _ _ _ hr hlen ih

/-- Claim C7: for a source serving `items` (resp. `bitems`) paginated in
pages of at most 100, the search and block cursor loops return exactly
those items in order — no duplicates, no gaps — for any number of pages
and independently of the cursor values the source reports. -/
theorem c7_pagination_exact (presps : List (PageResp Page))
    (bresps : List (PageResp Block)) (items : List Page) (bitems : List Block)
    (hp : WellPaged presps items) (hb : WellPaged bresps bitems) :
    searchPagesAcc presps = items ∧
    retrieveBlocksAcc bresps = bitems ∧
    (∀ f : Option String → Option String,
      searchPagesAcc (presps.map (fun r => { r with nextCursor := f r.nextCursor })) =
        items) ∧
    (∀ f : Option String → Option String,
      retrieveBlocksAcc (bresps.map (fun r => { r with nextCursor := f r.nextCursor })) =
        bitems) := by
  refine ⟨paginate_of_wellPaged hp, paginate_of_wellPaged hb, ?_, ?_⟩
  · intro f
    exact paginate_of_wellPaged (wellPaged_map_cursor f hp)
  · intro f
    exact paginate_of_wellPaged (wellPaged_map_cursor f hb)

/-- A two-page concrete source used as the pagination witness. -/
def wPageA : Page := { id := "a", createdTime := "", parent := ParentRef.workspace, properties := [] }

/-- Second concrete page for the pagination witness. -/
def wPageB : Page := { id := "b", createdTime := "", parent := ParentRef.workspace, properties := [] }

/-- A concrete block for the pagination witness. -/
def wBlockC : Block := { type := "paragraph", paragraph := some ⟨[], ""⟩ }

/-- Witness for C7: a two-page document source and a one-page block source. -/
theorem c7_pagination_exact_witness :
    WellPaged [⟨[wPageA], some "c", true⟩, ⟨[wPageB], none, false⟩] [wPageA, wPageB] ∧
    WellPaged [⟨[wBlockC], none, false⟩] [wBlockC] ∧
    searchPagesAcc [⟨[wPageA], some "c", true⟩, ⟨[wPageB], none, false⟩] =
      [wPageA, wPageB] ∧
    retrieveBlocksAcc [⟨[wBlockC], none, false⟩] = [wBlockC] := by
  have hp : WellPaged [(⟨[wPageA], some "c", true⟩ : PageResp Page),
      ⟨[wPageB], none, false⟩] ([wPageA] ++ [wPageB]) :=
    WellPaged.cons _ _ _ rfl (by simp) (WellPaged.last _ rfl (by simp))
  have hb : WellPaged [(⟨[wBlockC], none, false⟩ : PageResp Block)] [wBlockC] :=
    WellPaged.last _ rfl (by simp)
  have hmain := c7_pagination_exact _ _ _ _ hp hb
  exact ⟨hp, hb, hmain.1, hmain.2.1⟩

/-! ## Content splitter (internal/migrate/migrator.go, createSplitMemos)

The splitting loop indexes bytes; content is modelled as `List Char`
(characters and bytes coincide on the ASCII inputs used for witnesses).
The Go `for` loops become structural recursions; the chunking loop gets a
fuel argument bounded by the content length (each iteration consumes at
least one character, so the fuel never runs out — `splitChunksFuel_eq`
shows the fuel choice is irrelevant). -/

/-- The Memos API content limit. -/
def memosMaxLength : Nat := 8192

/-- The chunk bound: 200 characters reserved for title and markers. -/
def safeChunkSize : Nat := memosMaxLength - 200

/-- Trailing continuation marker appended to non-final parts. -/
def splitMarker : List Char := "\n\n...".data

/-- Leading continuation marker prefixed to non-initial parts. -/
def continuationMarker : List Char := "...\n\n".data

/-- The backwards scan for a newline: from index `i` downwards, stop at the
first index holding a newline, or at 0.  (In the Go loop the index 0 is
never itself tested; mirrored here by returning 0 at fuel 0.) -/
def scanBack (remaining : List Char) : Nat → Nat
  | 0 => 0
  | i + 1 => if remaining.getD (i + 1) ' ' = '\n' then i + 1 else scanBack remaining i

/-- The chosen break point: the newline scan's answer, or a hard cut at
`safeChunkSize` when the scan hit 0. -/
def breakPointOf (remaining : List Char) : Nat :=
  if scanBack remaining safeChunkSize = 0 then safeChunkSize
  else scanBack remaining safeChunkSize

/-- Leading newline/space trimming applied to the remainder after a cut. -/
def trimLead : List Char → List Char
  | [] => []
  | c :: rest => if c = '\n' ∨ c = ' ' then trimLead rest else c :: rest

/-- The chunking loop with explicit fuel. -/
def splitChunksFuel : Nat → List Char → List (List Char)
  | 0, _ => []
  | fuel + 1, remaining =>
    if safeChunkSize < remaining.length then
      remaining.take (breakPointOf remaining) ::
        splitChunksFuel fuel (trimLead (remaining.drop (breakPointOf remaining)))
    else if 0 < remaining.length then [remaining] else []

/-- The chunking loop of `createSplitMemos`: cut at the last newline at or
before `safeChunkSize` (hard cut if none), trim the remainder's leading
whitespace, repeat while the remainder exceeds `safeChunkSize`, then keep
the nonempty remainder as the final chunk. -/
def splitChunks (content : List Char) : List (List Char) :=
  splitChunksFuel (content.length + 1) content

lemma scanBack_le (remaining : List Char) : ∀ i, scanBack remaining i ≤ i := by
  intro i
  induction i with
  | zero => simp [scanBack]
  | succ j ih =>
    unfold scanBack
    split
    · exact Nat.le_refl _
    · exact Nat.le_trans ih (Nat.le_succ j)

lemma breakPointOf_pos (remaining : List Char) : 0 < breakPointOf remaining := by
  unfold breakPointOf
  split
  · decide
  · rename_i h
    exact Nat.pos_of_ne_zero h

lemma breakPointOf_le (remaining : List Char) :
    breakPointOf remaining ≤ safeChunkSize := by
  unfold breakPointOf
  split
  · exact Nat.le_refl _
  · exact scanBack_le remaining safeChunkSize

lemma trimLead_length_le (l : List Char) : (trimLead l).length ≤ l.length := by
  induction l with
  | nil => simp [trimLead]
  | cons c rest ih =>
    unfold trimLead
    split
    · exact Nat.le_trans ih (Nat.le_succ _)
    · exact Nat.le_refl _

lemma splitChunksFuel_irrel :
    ∀ (n : Nat) (r : List Char), r.length ≤ n →
      ∀ f g, r.length < f → r.length < g →
        splitChunksFuel f r = splitChunksFuel g r := by
  intro n
  induction n with
  | zero =>
    intro r hr f g hf hg
    have hr0 : r.length = 0 := Nat.le_zero.mp hr
    match f, hf with
    | f' + 1, _ =>
      match g, hg with
      | g' + 1, _ =>
        unfold splitChunksFuel
        have hnc : ¬ safeChunkSize < r.length := by
          simp [hr0, safeChunkSize, memosMaxLength]
        rw [if_neg hnc, if_neg hnc]
  | succ n ih =>
    intro r hr f g hf hg
    match f, hf with
    | f' + 1, _ =>
      match g, hg with
      | g' + 1, _ =>
        unfold splitChunksFuel
        by_cases hc : safeChunkSize < r.length
        · rw [if_pos hc, if_pos hc]
          have hless : (trimLead (r.drop (breakPointOf r))).length < r.length := by

            have h1 := trimLead_length_le (r.drop (breakPointOf r))
            have h2 : (r.drop (breakPointOf r)).length = r.length - breakPointOf r := by
              simp
            have h3 := breakPointOf_pos r
            omega

          have hle : (trimLead (r.drop (breakPointOf r))).length ≤ n := by omega
          rw [ih _ hle f' g' (by omega) (by omega)]
        · rw [if_neg hc, if_neg hc]

lemma splitChunksFuel_eq (f : Nat) (r : List Char) (h : r.length < f) :
    splitChunksFuel f r = splitChunks r :=
  splitChunksFuel_irrel r.length r (Nat.le_refl _) f (r.length + 1) h (Nat.lt_succ_self _)

lemma splitChunks_step (r : List Char) (h : safeChunkSize < r.length) :
    splitChunks r =
      r.take (breakPointOf r) ::
        splitChunks (trimLead (r.drop (breakPointOf r))) := by
  unfold splitChunks
  conv_lhs => rw [splitChunksFuel]
  rw [if_pos h]
  congr 1
  apply splitChunksFuel_eq
  have h1 := trimLead_length_le (r.drop (breakPointOf r))
  have h2 : (r.drop (breakPointOf r)).length = r.length - breakPointOf r := by simp
  have h3 := breakPointOf_pos r
  omega

lemma splitChunks_base (r : List Char) (h : r.length ≤ safeChunkSize) :
    splitChunks r = if 0 < r.length then [r] else [] := by
  unfold splitChunks
  rw [splitChunksFuel]
  rw [if_neg (by omega)]

lemma safeChunkSize_eq : safeChunkSize = 7992 := rfl

lemma memosMaxLength_eq : memosMaxLength = 8192 := rfl

/-- Whitespace dropped at cut points: newlines and spaces only. -/
def wsOnly (l : List Char) : Prop := ∀ c ∈ l, c = '\n' ∨ c = ' '

lemma wsOnly_nil : wsOnly [] := fun c hc => absurd hc (List.not_mem_nil c)

/-- `Reassembles chunks content`: `content` is the chunks in order,
interleaved with (and possibly followed by) newline/space runs — exactly
the characters the splitting loop trims away at each cut. -/
def Reassembles : List (List Char) → List Char → Prop
  | [], content => wsOnly content
  | c :: cs, content =>
    ∃ ws rest, wsOnly ws ∧ content = c ++ ws ++ rest ∧ Reassembles cs rest

lemma trimLead_split (l : List Char) :
    ∃ ws, wsOnly ws ∧ l = ws ++ trimLead l := by
  induction l with
  | nil => exact ⟨[], wsOnly_nil, rfl⟩
  | cons c rest ih =>
    unfold trimLead
    split
    · rename_i hc
      obtain ⟨ws, hws, hsplit⟩ := ih
      refine ⟨c :: ws, ?_, ?_⟩
      · intro d hd
        rcases List.mem_cons.mp hd with h | h
        · subst h; exact hc
        · exact hws d h
      · rw [List.cons_append, ← hsplit]
    · exact ⟨[], wsOnly_nil, rfl⟩

/-- All chunks stay within `safeChunkSize` (hence within the 8192 limit). -/
lemma splitChunks_length_le :
    ∀ (n : Nat) (r : List Char), r.length ≤ n →
      ∀ p ∈ splitChunks r, p.length ≤ safeChunkSize := by
  intro n
  induction n with
  | zero =>
    intro r hr p hp
    have hr0 : r.length = 0 := Nat.le_zero.mp hr
    have hs := safeChunkSize_eq
    rw [splitChunks_base r (by omega)] at hp
    rw [if_neg (by omega)] at hp
    cases hp
  | succ n ih =>
    intro r hr p hp
    by_cases hc : safeChunkSize < r.length
    · rw [splitChunks_step r hc] at hp
      rcases List.mem_cons.mp hp with h | h
      · subst h
        calc (r.take (breakPointOf r)).length ≤ breakPointOf r := by simp
          _ ≤ safeChunkSize := breakPointOf_le r
      · have hless : (trimLead (r.drop (breakPointOf r))).length ≤ n := by
          have h1 := trimLead_length_le (r.drop (breakPointOf r))
          have h2 : (r.drop (breakPointOf r)).length = r.length - breakPointOf r := by
            simp
          have h3 := breakPointOf_pos r
          omega
        exact ih _ hless p h
    · rw [splitChunks_base r (by omega)] at hp
      by_cases hz : 0 < r.length
      · rw [if_pos hz] at hp
        rcases List.mem_cons.mp hp with h | h
        · subst h; omega
        · cases h
      · rw [if_neg hz] at hp
        cases hp

/-- The chunks reassemble the content up to the trimmed whitespace. -/
lemma splitChunks_reassembles :
    ∀ (n : Nat) (r : List Char), r.length ≤ n →
      Reassembles (splitChunks r) r := by
  intro n
  induction n with
  | zero =>
    intro r hr
    have hr0 : r.length = 0 := Nat.le_zero.mp hr
    have hnil : r = [] := List.length_eq_zero.mp hr0
    subst hnil
    rw [splitChunks_base [] (by simp)]
    rw [if_neg (by simp)]
    exact wsOnly_nil
  | succ n ih =>
    intro r hr
    by_cases hc : safeChunkSize < r.length
    · rw [splitChunks_step r hc]
      obtain ⟨ws, hws, hsplit⟩ := trimLead_split (r.drop (breakPointOf r))
      refine ⟨ws, trimLead (r.drop (breakPointOf r)), hws, ?_, ?_⟩
      · conv_lhs => rw [← List.take_append_drop (breakPointOf r) r]
        rw [List.append_assoc, ← hsplit]
      · apply ih
        have h1 := trimLead_length_le (r.drop (breakPointOf r))
        have h2 : (r.drop (breakPointOf r)).length = r.length - breakPointOf r := by
          simp
        have h3 := breakPointOf_pos r
        omega
    · rw [splitChunks_base r (by omega)]
      by_cases hz : 0 < r.length
      · rw [if_pos hz]
        exact ⟨[], [], wsOnly_nil, by simp, wsOnly_nil⟩
      · rw [if_neg hz]
        have hnil : r = [] := List.length_eq_zero.mp (by omega)
        subst hnil
        exact wsOnly_nil

/-- Every chunk produced by the splitting loop fits the service limit. -/
def AllChunksFit (content : List Char) : Prop :=
  ∀ p ∈ splitChunks content, p.length ≤ memosMaxLength

/-- Claim C2 (amended): for any content (in particular content longer than
8192), the chunks are each within the limit (indeed within 7992), and the
original text equals the chunks in order with the whitespace runs the
splitter trimmed at each cut reinserted between them.  Exact
concatenation-reconstruction fails: the trimmed whitespace is lost
(`c2_split_counterexample`). -/
theorem c2_split_amended (content : List Char) :
    AllChunksFit content ∧ Reassembles (splitChunks content) content := by
  constructor
  · intro p hp
    have h := splitChunks_length_le content.length content (Nat.le_refl _) p hp
    have : safeChunkSize ≤ memosMaxLength := by simp [safeChunkSize, memosMaxLength]
    omega
  · exact splitChunks_reassembles content.length content (Nat.le_refl _)

/-! ## Per-part memo assembly (createSplitMemos, second half) -/

/-- Go `strings.Split(part, "\n")`. -/
def splitLines : List Char → List (List Char)
  | [] => [[]]
  | c :: rest =>
    if c = '\n' then [] :: splitLines rest
    else
      match splitLines rest with
      | l :: ls => (c :: l) :: ls
      | [] => [[c]]

/-- Go `strings.Join(lines, "\n")`. -/
def joinLines : List (List Char) → List Char
  | [] => []
  | [l] => l
  | l :: ls => l ++ '\n' :: joinLines ls

/-- Strip the original title: drop the first line when it starts with
"# ", and rejoin the remaining lines.  (`splitLines` always returns at
least one line, so testing the head via `headD` matches the Go index-0
prefix test.) -/
def contentWithoutTitle (part : List Char) : List Char :=
  if ((splitLines part).headD []).take 2 = ['#', ' '] then
    joinLines ((splitLines part).drop 1)
  else joinLines (splitLines part)

/-- The renumbered part title `"%s (%d/%d)"` (1-indexed `partNumber`). -/
def partTitle (pageTitle : List Char) (partNumber n : Nat) : List Char :=
  pageTitle ++ (" (" ++ toString partNumber ++ "/" ++ toString n ++ ")").data

/-- The injected heading line (plus blank line) for part `i` (0-indexed)
of `n`: `"# " + partTitle + "\n\n"`. -/
def partHeader (pageTitle : List Char) (i n : Nat) : List Char :=
  ('#' :: ' ' :: partTitle pageTitle (i + 1) n) ++ ['\n', '\n']

/-- Memo content for chunk `i` (0-indexed) of `n`: header, then the
continuation markers around the de-titled chunk — trailing marker for the
first part, leading marker for the last, both for middle parts. -/
def partMemoContent (pageTitle : List Char) (n i : Nat) (chunk : List Char) :
    List Char :=
  if i = 0 then
    partHeader pageTitle i n ++ contentWithoutTitle chunk ++ splitMarker
  else if i = n - 1 then
    partHeader pageTitle i n ++ continuationMarker ++ contentWithoutTitle chunk
  else
    partHeader pageTitle i n ++ continuationMarker ++ contentWithoutTitle chunk ++
      splitMarker

/-- `createSplitMemos`: split the content into chunks and build one memo
(content, timestamp) per chunk; part `i` (0-indexed) is timestamped
`createdTime + 5 i` seconds. -/
def createSplitMemos (content pageTitle : List Char) (createdTime : Int) :
    List (List Char × Int) :=
  (splitChunks content).enum.map (fun ic =>
    (partMemoContent pageTitle (splitChunks content).length ic.1 ic.2,
      createdTime + 5 * ic.1))

lemma enumFrom_pairwise_fst {α : Type} (l : List α) :
    ∀ k, List.Pairwise (fun a b : Nat × α => a.1 < b.1) (l.enumFrom k) := by
  induction l with
  | nil => intro k; simp
  | cons x xs ih =>
    intro k
    rw [List.enumFrom_cons, List.pairwise_cons]
    refine ⟨?_, ih (k + 1)⟩
    intro b hb
    have := (List.mem_enumFrom (x := b.2) (i := b.1) (j := k + 1) (by simpa using hb)).1
    show k < b.1
    omega

/-- What claim C5 asserts of a split, phrased over 0-indexed part `i` of
`n` (the claim's 1-indexed part `i+1`): one memo per chunk; each memo is
the numbered title heading, then a leading ellipsis marker exactly for
non-first parts, the de-titled chunk, and a trailing ellipsis marker
exactly for non-last parts; part `i` is timestamped `t + 5 i` and the
timestamps strictly increase. -/
def splitMemoSpec (content pageTitle : List Char) (t : Int) : Prop :=
  (createSplitMemos content pageTitle t).length = (splitChunks content).length ∧
  (∀ i chunk memo ts,
    (splitChunks content).get? i = some chunk →
    (createSplitMemos content pageTitle t).get? i = some (memo, ts) →
    memo = partHeader pageTitle i (splitChunks content).length ++
      ((if 0 < i then continuationMarker else []) ++
        contentWithoutTitle chunk ++
        (if i < (splitChunks content).length - 1 then splitMarker else [])) ∧
    ts = t + 5 * i) ∧
  List.Pairwise (· < ·) ((createSplitMemos content pageTitle t).map (fun m => m.2))

/-- Claim C5: when the splitter produces at least two parts, every part's
title is the original suffixed "(i/n)" with 1-indexed numbering, the first
part carries only the trailing ellipsis marker, the last only the leading
one, middle parts both, and part timestamps advance by 5 seconds per part,
strictly increasing. -/
theorem c5_split_parts (content pageTitle : List Char) (t : Int)
    (hn : 2 ≤ (splitChunks content).length) :
    splitMemoSpec content pageTitle t := by
  refine ⟨?_, ?_, ?_⟩
  · unfold createSplitMemos
    rw [List.length_map, List.enum_length]
  · intro i chunk memo ts hchunk hmemo
    unfold createSplitMemos at hmemo
    rw [List.get?_map, List.get?_enum, hchunk] at hmemo
    simp only [Option.map_some'] at hmemo
    obtain ⟨hm, ht⟩ := Prod.mk.inj (Option.some.inj hmemo)
    have hi : i < (splitChunks content).length := by
      rcases List.get?_eq_some.mp hchunk with ⟨h, _⟩
      exact h
    refine ⟨?_, ht.symm⟩
    rw [← hm]
    unfold partMemoContent
    by_cases h0 : i = 0
    · subst h0
      rw [if_pos rfl, if_neg (by omega), if_pos (by omega)]
      simp [List.append_assoc]
    · rw [if_neg h0]
      by_cases hlast : i = (splitChunks content).length - 1
      · rw [if_pos hlast, if_pos (by omega), if_neg (by omega)]
        simp [List.append_assoc]
      · rw [if_neg hlast, if_pos (by omega), if_pos (by omega)]
        simp [List.append_assoc]
  · unfold createSplitMemos
    rw [List.map_map, List.pairwise_map]
    apply List.Pairwise.imp ?_ (enumFrom_pairwise_fst (splitChunks content) 0)
    intro a b hab
    show t + 5 * (a.1 : Int) < t + 5 * (b.1 : Int)
    omega

/-! ## Concrete split instances -/

lemma scanBack_succ (r : List Char) (i : Nat) :
    scanBack r (i + 1) = if r.getD (i + 1) ' ' = '\n' then i + 1 else scanBack r i := rfl

/-- A splitting instance: content of the shape `a ++ '\n' :: b` with
`a` exactly `safeChunkSize` long and `b` a short trim-stable tail splits
into the two chunks `a` and `b` (the newline between them is dropped). -/
lemma splitChunks_two (a b : List Char) (ha : a.length = safeChunkSize)
    (hb0 : 0 < b.length) (hb : b.length ≤ safeChunkSize) (htrim : trimLead b = b) :
    splitChunks (a ++ '\n' :: b) = [a, b] := by
  have hs := safeChunkSize_eq
  have hlen : safeChunkSize < (a ++ '\n' :: b).length := by
    rw [List.length_append, List.length_cons, ha]
    omega
  have hget : (a ++ '\n' :: b).getD safeChunkSize ' ' = '\n' := by
    unfold List.getD
    rw [List.get?_append_right (by omega)]
    rw [ha]
    simp
  have hscan : scanBack (a ++ '\n' :: b) safeChunkSize = safeChunkSize := by
    have h1 : safeChunkSize = 7991 + 1 := by omega
    rw [h1, scanBack_succ, ← h1, hget, if_pos rfl]
  have hbp : breakPointOf (a ++ '\n' :: b) = safeChunkSize := by
    unfold breakPointOf
    rw [hscan, if_neg (by omega)]
  rw [splitChunks_step _ hlen, hbp]
  rw [List.take_left' ha, List.drop_left' ha]
  have hdrop : trimLead ('\n' :: b) = b := by
    unfold trimLead
    rw [if_pos (Or.inl rfl), htrim]
  rw [hdrop, splitChunks_base b hb, if_pos hb0]

/-- The concrete oversized content used by the split witnesses: 7992 'a's,
a newline, then 300 'b's (8293 characters in total). -/
def wContent : List Char := List.replicate 7992 'a' ++ '\n' :: List.replicate 300 'b'

/-- The concrete page title used by the split witnesses. -/
def wTitle : List Char := "T".data

lemma trimLead_replicate_b : trimLead (List.replicate 300 'b') = List.replicate 300 'b' := by
  rw [show (300 : Nat) = 299 + 1 from rfl, List.replicate_succ]
  unfold trimLead
  rw [if_neg (by decide)]

lemma wContent_chunks :
    splitChunks wContent = [List.replicate 7992 'a', List.replicate 300 'b'] := by
  unfold wContent
  refine splitChunks_two _ _ ?_ ?_ ?_ trimLead_replicate_b
  · rw [List.length_replicate, safeChunkSize_eq]
  · rw [List.length_replicate]; omega
  · rw [List.length_replicate, safeChunkSize_eq]; omega

/-- Witness for C5: the concrete 8293-character content splits into two
parts, and the C5 shape holds for it. -/
theorem c5_split_parts_witness :
    2 ≤ (splitChunks wContent).length ∧ splitMemoSpec wContent wTitle 0 := by
  have h2 : (splitChunks wContent).length = 2 := by
    rw [wContent_chunks, List.length_cons, List.length_cons, List.length_nil]
  have hn : 2 ≤ (splitChunks wContent).length := by omega
  exact ⟨hn, c5_split_parts wContent wTitle 0 hn⟩

/-! ## Claim C2 counterexample -/

/-- First stage of the claim's per-part stripping: remove the injected
numbered title line, then the leading continuation marker of non-first
parts. -/
def stripNoTrail (pageTitle : List Char) (n i : Nat) (memo : List Char) :
    List Char :=
  if 0 < i then
    (memo.drop (partHeader pageTitle i n).length).drop continuationMarker.length
  else memo.drop (partHeader pageTitle i n).length

/-- What the claim's reconstruction does to one part: strip the injected
numbered title line, the leading continuation marker of non-first parts,
and the trailing continuation marker of non-last parts. -/
def stripPartMarkers (pageTitle : List Char) (n i : Nat) (memo : List Char) :
    List Char :=
  if i < n - 1 then
    (stripNoTrail pageTitle n i memo).take
      ((stripNoTrail pageTitle n i memo).length - splitMarker.length)
  else stripNoTrail pageTitle n i memo

/-- The claim's reconstruction: strip each part and concatenate. -/
def reconstructFromParts (pageTitle : List Char) (memos : List (List Char)) :
    List Char :=
  (memos.enum.map (fun im => stripPartMarkers pageTitle memos.length im.1 im.2)).join

lemma splitLines_cons (c : Char) (rest : List Char) :
    splitLines (c :: rest) =
      if c = '\n' then [] :: splitLines rest
      else
        match splitLines rest with
        | l :: ls => (c :: l) :: ls
        | [] => [[c]] := rfl

lemma splitLines_no_newline {l : List Char} (h : '\n' ∉ l) : splitLines l = [l] := by
  induction l with
  | nil => rfl
  | cons c rest ih =>
    have hc : ¬ c = '\n' := fun hcc => h (hcc ▸ List.mem_cons_self c rest)
    rw [splitLines_cons, if_neg hc, ih (fun hm => h (List.mem_cons_of_mem c hm))]

lemma splitLines_append_newline {l : List Char} (rest : List Char) (h : '\n' ∉ l) :
    splitLines (l ++ '\n' :: rest) = l :: splitLines rest := by
  induction l with
  | nil =>
    show splitLines ('\n' :: rest) = [] :: splitLines rest
    rw [splitLines_cons, if_pos rfl]
  | cons c cl ih =>
    have hc : ¬ c = '\n' := fun hcc => h (hcc ▸ List.mem_cons_self c cl)
    have hnm : '\n' ∉ cl := fun hm => h (List.mem_cons_of_mem c hm)
    show splitLines (c :: (cl ++ '\n' :: rest)) = (c :: cl) :: splitLines rest
    rw [splitLines_cons, if_neg hc, ih hnm]

lemma newline_not_mem_replicate (k : Nat) (c : Char) (hc : ¬ c = '\n') :
    '\n' ∉ List.replicate k c := by
  intro hm
  exact hc ((List.eq_of_mem_replicate hm).symm)

lemma joinLines_singleton (l : List Char) : joinLines [l] = l := rfl

lemma joinLines_pair (l₁ l₂ : List Char) :
    joinLines [l₁, l₂] = l₁ ++ '\n' :: l₂ := rfl

lemma take_two_replicate (k : Nat) (c : Char) (hk : 2 ≤ k) :
    (List.replicate k c).take 2 = [c, c] := by
  rw [List.take_replicate, show min 2 k = 2 by omega]
  rfl

lemma contentWithoutTitle_no_newline_no_heading {l : List Char}
    (h : '\n' ∉ l) (hh : ¬ l.take 2 = ['#', ' ']) :
    contentWithoutTitle l = l := by
  unfold contentWithoutTitle
  rw [splitLines_no_newline h]
  rw [List.headD_cons]
  rw [if_neg hh]
  exact joinLines_singleton l

lemma contentWithoutTitle_replicate_a :
    contentWithoutTitle (List.replicate 7992 'a') = List.replicate 7992 'a' := by
  apply contentWithoutTitle_no_newline_no_heading
  · exact newline_not_mem_replicate _ _ (by decide)
  · rw [take_two_replicate _ _ (by omega)]
    decide

lemma contentWithoutTitle_replicate_b :
    contentWithoutTitle (List.replicate 300 'b') = List.replicate 300 'b' := by
  apply contentWithoutTitle_no_newline_no_heading
  · exact newline_not_mem_replicate _ _ (by decide)
  · rw [take_two_replicate _ _ (by omega)]
    decide

lemma contentWithoutTitle_wContent : contentWithoutTitle wContent = wContent := by
  unfold contentWithoutTitle wContent
  rw [splitLines_append_newline _ (newline_not_mem_replicate _ _ (by decide))]
  rw [splitLines_no_newline (newline_not_mem_replicate _ _ (by decide))]
  rw [List.headD_cons]
  rw [if_neg (by rw [take_two_replicate _ _ (by omega)]; decide)]
  exact joinLines_pair _ _

/-- Claim C2 counterexample: for the concrete 8293-character content, the
splitter's parts, stripped of the injected numbered titles and ellipsis
markers exactly as the claim prescribes, concatenate to a text one
character shorter than the original body — the newline at the cut point
was trimmed away and is not recoverable from the parts. -/
lemma partMemoContent_first (pt : List Char) (n : Nat) (chunk : List Char) :
    partMemoContent pt n 0 chunk =
      partHeader pt 0 n ++ contentWithoutTitle chunk ++ splitMarker := by
  unfold partMemoContent
  rw [if_pos rfl]

lemma partMemoContent_last (pt : List Char) (n i : Nat) (hi : ¬ i = 0)
    (hlast : i = n - 1) (chunk : List Char) :
    partMemoContent pt n i chunk =
      partHeader pt i n ++ continuationMarker ++ contentWithoutTitle chunk := by
  unfold partMemoContent
  rw [if_neg hi, if_pos hlast]

lemma stripNoTrail_zero (pt : List Char) (n : Nat) (memo : List Char) :
    stripNoTrail pt n 0 memo = memo.drop (partHeader pt 0 n).length := by
  unfold stripNoTrail
  rw [if_neg (by omega)]

lemma stripNoTrail_pos (pt : List Char) (n i : Nat) (hi : 0 < i)
    (memo : List Char) :
    stripNoTrail pt n i memo =
      (memo.drop (partHeader pt i n).length).drop continuationMarker.length := by
  unfold stripNoTrail
  rw [if_pos hi]

lemma wStrip0 : stripPartMarkers wTitle 2 0
    (partMemoContent wTitle 2 0 (List.replicate 7992 'a')) =
    List.replicate 7992 'a' := by
  have hsnt : stripNoTrail wTitle 2 0
      (partMemoContent wTitle 2 0 (List.replicate 7992 'a')) =
      List.replicate 7992 'a' ++ splitMarker := by
    rw [stripNoTrail_zero, partMemoContent_first, contentWithoutTitle_replicate_a]
    rw [List.append_assoc, List.drop_left]
  unfold stripPartMarkers
  rw [if_pos (by omega), hsnt]
  have h1 : (List.replicate 7992 'a' ++ splitMarker).length - splitMarker.length =
      (List.replicate 7992 'a').length := by
    rw [List.length_append]
    omega
  rw [h1, List.take_left]

lemma wStrip1 : stripPartMarkers wTitle 2 1
    (partMemoContent wTitle 2 1 (List.replicate 300 'b')) =
    List.replicate 300 'b' := by
  have hsnt : stripNoTrail wTitle 2 1
      (partMemoContent wTitle 2 1 (List.replicate 300 'b')) =
      List.replicate 300 'b' := by
    rw [stripNoTrail_pos _ _ _ (by omega),
      partMemoContent_last wTitle 2 1 (by omega) (by omega),
      contentWithoutTitle_replicate_b]
    rw [List.append_assoc, List.drop_left, List.drop_left]
  unfold stripPartMarkers
  rw [if_neg (by omega), hsnt]

/-- Claim C2 counterexample: for the concrete 8293-character content, the
splitter's parts, stripped of the injected numbered titles and ellipsis
markers exactly as the claim prescribes, concatenate to a text one
character shorter than the original body — the newline at the cut point
was trimmed away and is not recoverable from the parts. -/
theorem c2_split_counterexample :
    8192 < wContent.length ∧
    reconstructFromParts wTitle
        ((createSplitMemos wContent wTitle 0).map (fun m => m.1)) ≠
      contentWithoutTitle wContent := by
  have hlen : wContent.length = 8293 := by
    unfold wContent
    rw [List.length_append, List.length_cons, List.length_replicate,
      List.length_replicate]
  constructor
  · omega
  · have hmemos : (createSplitMemos wContent wTitle 0).map (fun m => m.1) =
        [partMemoContent wTitle 2 0 (List.replicate 7992 'a'),
         partMemoContent wTitle 2 1 (List.replicate 300 'b')] := by
      unfold createSplitMemos
      rw [wContent_chunks]
      rfl
    rw [hmemos, contentWithoutTitle_wContent]
    have hrec : reconstructFromParts wTitle
        [partMemoContent wTitle 2 0 (List.replicate 7992 'a'),
         partMemoContent wTitle 2 1 (List.replicate 300 'b')] =
        List.replicate 7992 'a' ++ List.replicate 300 'b' := by
      show (stripPartMarkers wTitle 2 0
          (partMemoContent wTitle 2 0 (List.replicate 7992 'a')) ::
        stripPartMarkers wTitle 2 1
          (partMemoContent wTitle 2 1 (List.replicate 300 'b')) :: []).join = _
      rw [wStrip0, wStrip1]
      rw [show (List.replicate 7992 'a' :: List.replicate 300 'b' :: []).join =
        List.replicate 7992 'a' ++ (List.replicate 300 'b' ++ []) from rfl]
      rw [List.append_nil]
    rw [hrec]
    intro heq
    have hlconcat := congrArg List.length heq
    rw [List.length_append, List.length_replicate, List.length_replicate] at hlconcat
    unfold wContent at hlconcat
    rw [List.length_append, List.length_cons, List.length_replicate,
      List.length_replicate] at hlconcat
    omega

/-! ## Tag resolution and orchestration (internal/migrate/migrator.go)

Network effects become oracle functions in an `Env` record; the page and
database caches of the Go migrator memoize these deterministic oracles and
are therefore observationally transparent, so the embedding calls the
oracles directly.  The durable `State` (a Go `map[string]bool` holding
`true` entries) becomes a membership list; `SaveState` becomes the `disk`
component of `RunState`. -/

/-- Modelled from the spec: `GetParentDatabaseID` (not under src/) yields
the collection id when the parent reference is a collection, else "". -/
def getParentDatabaseID (p : Page) : String :=
  match p.parent with
  | ParentRef.database i => i
  | _ => ""

/-- Modelled from the spec: `GetParentPageID` (not under src/) yields the
parent document id when the parent reference is a document, else "". -/
def getParentPageID (p : Page) : String :=
  match p.parent with
  | ParentRef.page i => i
  | _ => ""

/-- The collaborators of one run: search result, per-id fetches, the
target-service dispatch, state persistence, and the time library. -/
structure Env where
  searchResult : Except String (List Page)
  fetchBlocks : String → Except String (List Block)
  fetchPage : String → Except String Page
  fetchDb : String → Except String Database
  createMemo : List Char → Int → Except String Unit
  saveOk : List String → Bool
  tm : TimeModel

/-- The ancestor walk of `getParentTagsCached`: up to 10 hops, prepending
each parent's title; a failed fetch stops the walk and keeps the tags
accumulated so far. -/
def walkUp (env : Env) : Nat → String → List String → List String
  | 0, _, tags => tags
  | fuel + 1, pid, tags =>
    if pid = "" then tags
    else
      match env.fetchPage pid with
      | Except.error _ => tags
      | Except.ok pp => walkUp env fuel (getParentPageID pp) (getPageTitle pp :: tags)

/-- `getParentTagsCached`: seed with the owning collection's title when
the parent is a collection and its fetch succeeds, then walk the document
ancestor chain.  (The Go function's error result is always nil.) -/
def getParentTags (env : Env) (page : Page) : List String :=
  walkUp env 10 (getParentPageID page)
    (if getParentDatabaseID page ≠ "" then
      match env.fetchDb (getParentDatabaseID page) with
      | Except.ok db => [db.title]
      | Except.error _ => []
    else [])

/-- The post-hoc cosmetic substitution: the first "Tagebuch" tag is
lowercased (the Go loop breaks after the first hit). -/
def replaceFirstTagebuch : List String → List String
  | [] => []
  | t :: rest =>
    if t = "Tagebuch" then "tagebuch" :: rest else t :: replaceFirstTagebuch rest

/-- `State.MarkProcessed`: set-semantics insert into the processed set. -/
def markProcessed (s : List String) (id : String) : List String :=
  if s.contains id then s else s ++ [id]

/-- `State.IsProcessed`: map lookup defaulting to false. -/
def isProcessed (s : List String) (id : String) : Bool := s.contains id

/-- `filterProcessedPages`: drop pages already in the processed set. -/
def filterProcessedPages (s : List String) (pages : List Page) : List Page :=
  pages.filter (fun p => !isProcessed s p.id)

/-- The markdown produced for a page's blocks (tags resolved and the
"Tagebuch" substitution applied, as in `migratePage`). -/
def renderedMarkdown (env : Env) (page : Page) (blocks : List Block) : String :=
  blocksToMarkdown env.tm blocks page.createdTime (getPageTitle page)
    (replaceFirstTagebuch (getParentTags env page))

/-- The RFC3339 parse of the page's creation time, with Go's
current-time fallback on parse failure. -/
def pageCreatedTime (env : Env) (page : Page) : Int :=
  (env.tm.parse page.createdTime).getD env.tm.now

/-- The dispatch loop over split parts: create each part in order,
aborting on the first failure. -/
def dispatchAll (env : Env) :
    List (List Char × Int) → Except String (List (List Char × Int))
  | [] => Except.ok []
  | m :: rest =>
    match env.createMemo m.1 m.2 with
    | Except.ok _ =>
      match dispatchAll env rest with
      | Except.ok ds => Except.ok (m :: ds)
      | Except.error e => Except.error e
    | Except.error e => Except.error e

/-- `migratePage`: fetch blocks, skip block-less pages, render, skip
empty renders, then dispatch — split into parts beyond the length limit,
single memo otherwise.  The returned list is the memos dispatched. -/
def migratePageM (env : Env) (page : Page) :
    Except String (List (List Char × Int)) :=
  match env.fetchBlocks page.id with
  | Except.error e => Except.error e
  | Except.ok blocks =>
    if blocks.isEmpty then Except.ok []
    else if renderedMarkdown env page blocks = "" then Except.ok []
    else if memosMaxLength < (renderedMarkdown env page blocks).length then
      dispatchAll env (createSplitMemos (renderedMarkdown env page blocks).data
        (getPageTitle page).data (pageCreatedTime env page))
    else
      match env.createMemo (renderedMarkdown env page blocks).data
          (pageCreatedTime env page) with
      | Except.ok _ =>
        Except.ok [((renderedMarkdown env page blocks).data, pageCreatedTime env page)]
      | Except.error e => Except.error e

/-- Errors surfacing from a run. -/
inductive RunErr where
  | searchErr (e : String)
  | pageErr (title id e : String)
  | saveErr
deriving DecidableEq

/-- In-memory and on-disk processed sets. -/
structure RunState where
  mem : List String
  disk : List String
deriving DecidableEq

/-- The per-page loop of `Migrate`: migrate, mark processed, persist, and
continue; an error in a page aborts with that page's title and id; a save
failure aborts before the next page.  Returns the final state, the ids
processed (in order), and the terminating error, if any. -/
def runPages (env : Env) : RunState → List Page → RunState × List String × Option RunErr
  | rs, [] => (rs, [], none)
  | rs, p :: rest =>
    match migratePageM env p with
    | Except.error e => (rs, [], some (RunErr.pageErr (getPageTitle p) p.id e))
    | Except.ok _ =>
      if env.saveOk (markProcessed rs.mem p.id) then
        ((runPages env ⟨markProcessed rs.mem p.id, markProcessed rs.mem p.id⟩ rest).1,
         p.id :: (runPages env ⟨markProcessed rs.mem p.id, markProcessed rs.mem p.id⟩ rest).2.1,
         (runPages env ⟨markProcessed rs.mem p.id, markProcessed rs.mem p.id⟩ rest).2.2)
      else (⟨markProcessed rs.mem p.id, rs.disk⟩, [], some RunErr.saveErr)

/-- `MigrateOptions`. -/
structure MigrateOptions where
  resume : Bool
  filterTitles : List String

/-- The title filter applied only when titles were supplied. -/
def titleFiltered (opts : MigrateOptions) (pages : List Page) : List Page :=
  if opts.filterTitles.isEmpty then pages
  else filterPagesByTitle pages opts.filterTitles

/-- The two filters of `Migrate`, in order: title allow-list, then the
resume filter against the processed set. -/
def selectPages (opts : MigrateOptions) (mem : List String) (pages : List Page) :
    List Page :=
  if opts.resume then filterProcessedPages mem (titleFiltered opts pages)
  else titleFiltered opts pages

/-- `Migrate`: search, filter, end successfully when nothing is left,
otherwise run the per-page loop. -/
def migrateModel (env : Env) (opts : MigrateOptions) (rs : RunState) :
    RunState × List String × Option RunErr :=
  match env.searchResult with
  | Except.error e => (rs, [], some (RunErr.searchErr e))
  | Except.ok pages =>
    if (selectPages opts rs.mem pages).isEmpty then (rs, [], none)
    else runPages env rs (selectPages opts rs.mem pages)

/-- Marking a batch of pages in order. -/
def markAll (s : List String) (pages : List Page) : List String :=
  pages.foldl (fun acc p => markProcessed acc p.id) s

/-- Claim C1: for a document whose parent is a collection, the parent
reference is exclusive (spec §3), so the document has no ancestor-document
chain (`getParentPageID` is empty) and — when the collection resolves —
the returned tag sequence is exactly the collection's title: the
collection's title is the first element and the (empty) ancestor part is
trivially ordered outermost-first. -/
theorem c1_collection_tag_first (env : Env) (page : Page) (dbId : String)
    (db : Database) (hpar : page.parent = ParentRef.database dbId)
    (hne : ¬ dbId = "") (hdb : env.fetchDb dbId = Except.ok db) :
    getParentTags env page = [db.title] ∧ getParentPageID page = "" := by
  have hdbid : getParentDatabaseID page = dbId := by
    unfold getParentDatabaseID
    rw [hpar]
  have hpid : getParentPageID page = "" := by
    unfold getParentPageID
    rw [hpar]
  refine ⟨?_, hpid⟩
  unfold getParentTags
  rw [hdbid, hpid, if_pos hne, hdb]
  rfl

/-- The concrete collection for the C1 witness. -/
def wDb : Database := { id := "d1", title := "Tasks" }

/-- An environment resolving collection "d1" for the C1 witness. -/
def wEnvC1 : Env :=
  { searchResult := Except.ok []
    fetchBlocks := fun _ => Except.ok []
    fetchPage := fun _ => Except.error "nf"
    fetchDb := fun i => if i = "d1" then Except.ok wDb else Except.error "nf"
    createMemo := fun _ _ => Except.ok ()
    saveOk := fun _ => true
    tm := { parse := fun _ => none, formatMeta := fun _ => "", now := 0 } }

/-- A concrete page whose parent is collection "d1". -/
def wPageC1 : Page :=
  { id := "p", createdTime := "", parent := ParentRef.database "d1", properties := [] }

/-- Witness for C1 at a concrete collection-parented page. -/
theorem c1_collection_tag_first_witness :
    wPageC1.parent = ParentRef.database "d1" ∧
    ¬ "d1" = "" ∧
    wEnvC1.fetchDb "d1" = Except.ok wDb ∧
    (getParentTags wEnvC1 wPageC1 = [wDb.title] ∧ getParentPageID wPageC1 = "") :=
  ⟨rfl, by decide, rfl,
    c1_collection_tag_first wEnvC1 wPageC1 "d1" wDb rfl (by decide) rfl⟩

lemma mem_markProcessed_self (s : List String) (id : String) :
    id ∈ markProcessed s id := by
  unfold markProcessed
  split
  · rename_i h
    simpa using h
  · simp

lemma mem_markProcessed_of_mem {s : List String} {x : String} (id : String)
    (h : x ∈ s) : x ∈ markProcessed s id := by
  unfold markProcessed
  split
  · exact h
  · exact List.mem_append_left _ h

lemma not_mem_markProcessed {s : List String} {x id : String}
    (hx : x ∉ s) (hne : ¬ id = x) : x ∉ markProcessed s id := by
  unfold markProcessed
  split
  · exact hx
  · intro hm
    rcases List.mem_append.mp hm with h | h
    · exact hx h
    · exact hne (List.mem_singleton.mp h).symm

lemma runPages_nil (env : Env) (rs : RunState) :
    runPages env rs [] = (rs, [], none) := rfl

lemma runPages_cons_err (env : Env) (rs : RunState) (p : Page) (rest : List Page)
    (e : String) (h : migratePageM env p = Except.error e) :
    runPages env rs (p :: rest) =
      (rs, [], some (RunErr.pageErr (getPageTitle p) p.id e)) := by
  simp only [runPages]
  rw [h]

lemma runPages_cons_ok (env : Env) (rs : RunState) (p : Page) (rest : List Page)
    (v : List (List Char × Int)) (h : migratePageM env p = Except.ok v)
    (hs : env.saveOk (markProcessed rs.mem p.id) = true) :
    runPages env rs (p :: rest) =
      ((runPages env ⟨markProcessed rs.mem p.id, markProcessed rs.mem p.id⟩ rest).1,
       p.id :: (runPages env ⟨markProcessed rs.mem p.id, markProcessed rs.mem p.id⟩ rest).2.1,
       (runPages env ⟨markProcessed rs.mem p.id, markProcessed rs.mem p.id⟩ rest).2.2) := by
  simp only [runPages]
  rw [h]
  show (if env.saveOk (markProcessed rs.mem p.id) = true then _ else _) = _
  rw [if_pos hs]

lemma runPages_cons_savefail (env : Env) (rs : RunState) (p : Page)
    (rest : List Page) (v : List (List Char × Int))
    (h : migratePageM env p = Except.ok v)
    (hs : ¬ env.saveOk (markProcessed rs.mem p.id) = true) :
    runPages env rs (p :: rest) =
      (⟨markProcessed rs.mem p.id, rs.disk⟩, [], some RunErr.saveErr) := by
  simp only [runPages]
  rw [h]
  show (if env.saveOk (markProcessed rs.mem p.id) = true then _ else _) = _
  rw [if_neg hs]

lemma migrateModel_err (env : Env) (opts : MigrateOptions) (rs : RunState)
    (e : String) (h : env.searchResult = Except.error e) :
    migrateModel env opts rs = (rs, [], some (RunErr.searchErr e)) := by
  unfold migrateModel
  rw [h]

lemma migrateModel_ok (env : Env) (opts : MigrateOptions) (rs : RunState)
    (pages : List Page) (h : env.searchResult = Except.ok pages) :
    migrateModel env opts rs =
      if (selectPages opts rs.mem pages).isEmpty then (rs, [], none)
      else runPages env rs (selectPages opts rs.mem pages) := by
  unfold migrateModel
  rw [h]

lemma runPages_mem_mono (env : Env) :
    ∀ (pages : List Page) (rs : RunState) (x : String), x ∈ rs.mem →
      x ∈ (runPages env rs pages).1.mem := by
  intro pages
  induction pages with
  | nil => intro rs x hx; exact hx
  | cons p rest ih =>
    intro rs x hx
    unfold runPages
    cases hm : migratePageM env p with
    | error e => exact hx
    | ok v =>
      by_cases hs : env.saveOk (markProcessed rs.mem p.id) = true
      · rw [if_pos hs]
        exact ih ⟨markProcessed rs.mem p.id, markProcessed rs.mem p.id⟩ x
          (mem_markProcessed_of_mem p.id hx)
      · rw [if_neg hs]
        exact mem_markProcessed_of_mem p.id hx

lemma runPages_success_all_processed (env : Env) :
    ∀ (pages : List Page) (rs rs' : RunState) (ids : List String),
      runPages env rs pages = (rs', ids, none) →
      ∀ p ∈ pages, p.id ∈ rs'.mem := by
  intro pages
  induction pages with
  | nil =>
    intro rs rs' ids _ p hp
    cases hp
  | cons q rest ih =>
    intro rs rs' ids hrun p hp
    cases hm : migratePageM env q with
    | error e =>
      rw [runPages_cons_err env rs q rest e hm] at hrun
      exact absurd (congrArg (fun t => t.2.2) hrun) (by simp)
    | ok v =>
      by_cases hs : env.saveOk (markProcessed rs.mem q.id) = true
      · rw [runPages_cons_ok env rs q rest v hm hs] at hrun
        have hfst : (runPages env
            ⟨markProcessed rs.mem q.id, markProcessed rs.mem q.id⟩ rest).1 = rs' :=
          congrArg (fun t => t.1) hrun
        have hsnd : (runPages env
            ⟨markProcessed rs.mem q.id, markProcessed rs.mem q.id⟩ rest).2.2 = none :=
          congrArg (fun t => t.2.2) hrun
        rcases List.mem_cons.mp hp with hpq | hpr
        · subst hpq
          rw [← hfst]
          exact runPages_mem_mono env rest _ p.id (mem_markProcessed_self _ _)
        · have hres := ih ⟨markProcessed rs.mem q.id, markProcessed rs.mem q.id⟩
            (runPages env ⟨markProcessed rs.mem q.id, markProcessed rs.mem q.id⟩ rest).1
            (runPages env ⟨markProcessed rs.mem q.id, markProcessed rs.mem q.id⟩ rest).2.1
            (by rw [← hsnd]) p hpr
          rw [← hfst]
          exact hres
      · rw [runPages_cons_savefail env rs q rest v hm hs] at hrun
        exact absurd (congrArg (fun t => t.2.2) hrun) (by simp)

/-- Claim C3: a run with resume off that completes successfully marks
every surviving page; an immediately following run with resume on over the
same (unchanged) search result and the same title filter selects nothing —
it processes zero documents and leaves the state untouched. -/
theorem c3_resume_second_run_empty (env : Env) (ts : List String)
    (rs rs' : RunState) (ids : List String)
    (h : migrateModel env ⟨false, ts⟩ rs = (rs', ids, none)) :
    migrateModel env ⟨true, ts⟩ rs' = (rs', [], none) := by
  cases hsr : env.searchResult with
  | error e =>
    rw [migrateModel_err env _ rs e hsr] at h
    exact absurd (congrArg (fun t => t.2.2) h) (by simp)
  | ok pages =>
    rw [migrateModel_ok env _ rs pages hsr] at h
    rw [migrateModel_ok env _ rs' pages hsr]
    have hsel1 : selectPages ⟨false, ts⟩ rs.mem pages =
        titleFiltered ⟨true, ts⟩ pages := by
      unfold selectPages titleFiltered
      rfl
    rw [hsel1] at h
    by_cases hP : (titleFiltered ⟨true, ts⟩ pages).isEmpty
    · rw [if_pos hP] at h
      obtain ⟨hrs, _⟩ := Prod.mk.inj h
      subst hrs
      have hsel2 : selectPages ⟨true, ts⟩ rs.mem pages = [] := by
        unfold selectPages filterProcessedPages
        rw [if_pos rfl]
        rw [List.isEmpty_iff.mp hP]
        rfl
      rw [hsel2]
      rfl
    · rw [if_neg hP] at h
      have hall : ∀ p ∈ titleFiltered ⟨true, ts⟩ pages, p.id ∈ rs'.mem :=
        runPages_success_all_processed env _ rs rs' ids h
      have hsel2 : selectPages ⟨true, ts⟩ rs'.mem pages = [] := by
        unfold selectPages
        rw [if_pos rfl]
        unfold filterProcessedPages
        apply List.filter_eq_nil.mpr
        intro p hp
        have hmem : p.id ∈ rs'.mem := hall p hp
        simp [isProcessed, hmem]
      rw [hsel2]
      rfl

lemma not_mem_markAll :
    ∀ (pre : List Page) (s : List String) (x : String),
      x ∉ s → (∀ p ∈ pre, ¬ p.id = x) → x ∉ markAll s pre := by
  intro pre
  induction pre with
  | nil =>
    intro s x hx _
    exact hx
  | cons q pre' ih =>
    intro s x hx hne
    show x ∉ markAll (markProcessed s q.id) pre'
    exact ih _ x (not_mem_markProcessed hx (hne q (List.mem_cons_self q pre')))
      (fun p hp => hne p (List.mem_cons_of_mem q hp))

lemma runPages_prefix_fail (env : Env) (hsave : ∀ s, env.saveOk s = true) :
    ∀ (pre : List Page) (rs : RunState) (post : List Page) (pk : Page) (e : String),
      rs.mem = rs.disk →
      (∀ p ∈ pre, ∃ v, migratePageM env p = Except.ok v) →
      migratePageM env pk = Except.error e →
      runPages env rs (pre ++ pk :: post) =
        (⟨markAll rs.mem pre, markAll rs.mem pre⟩, pre.map (fun p => p.id),
          some (RunErr.pageErr (getPageTitle pk) pk.id e)) := by
  intro pre
  induction pre with
  | nil =>
    intro rs post pk e hinit hsucc hfail
    show runPages env rs (pk :: post) = _
    rw [runPages_cons_err env rs pk post e hfail]
    obtain ⟨mem, disk⟩ := rs
    simp only at hinit
    subst hinit
    rfl
  | cons q pre' ih =>
    intro rs post pk e hinit hsucc hfail
    obtain ⟨v, hv⟩ := hsucc q (List.mem_cons_self q pre')
    show runPages env rs (q :: (pre' ++ pk :: post)) = _
    rw [runPages_cons_ok env rs q _ v hv (hsave _)]
    rw [ih ⟨markProcessed rs.mem q.id, markProcessed rs.mem q.id⟩ post pk e rfl
      (fun p hp => hsucc p (List.mem_cons_of_mem q hp)) hfail]
    rfl

/-- Claim C4: with persistence succeeding, a run over documents
`pre ++ pk :: post` in which every document of `pre` migrates and `pk`
fails in a fetch/render/split/dispatch step (i) aborts at `pk` with an
error carrying `pk`'s title and id, leaving `post` unattempted, (ii) has
persisted exactly the initial set plus the ids of `pre` — the failing
document's id is not added — and (iii) after any successful document the
id is marked and persisted (memory and disk agree) before the rest of the
run is attempted. -/
theorem c4_fail_fast_and_persist (env : Env) (rs : RunState)
    (pre post : List Page) (pk : Page) (e : String)
    (hinit : rs.mem = rs.disk)
    (hsave : ∀ s, env.saveOk s = true)
    (hsucc : ∀ p ∈ pre, ∃ v, migratePageM env p = Except.ok v)
    (hfail : migratePageM env pk = Except.error e) :
    runPages env rs (pre ++ pk :: post) =
      (⟨markAll rs.mem pre, markAll rs.mem pre⟩, pre.map (fun p => p.id),
        some (RunErr.pageErr (getPageTitle pk) pk.id e)) ∧
    (pk.id ∉ rs.mem → (∀ p ∈ pre, ¬ p.id = pk.id) →
      pk.id ∉ markAll rs.mem pre) ∧
    (∀ (q : Page) (rest : List Page) (v : List (List Char × Int)),
      migratePageM env q = Except.ok v →
      runPages env rs (q :: rest) =
        ((runPages env ⟨markProcessed rs.mem q.id, markProcessed rs.mem q.id⟩ rest).1,
         q.id :: (runPages env ⟨markProcessed rs.mem q.id, markProcessed rs.mem q.id⟩ rest).2.1,
         (runPages env ⟨markProcessed rs.mem q.id, markProcessed rs.mem q.id⟩ rest).2.2)) := by
  refine ⟨runPages_prefix_fail env hsave pre rs post pk e hinit hsucc hfail, ?_, ?_⟩
  · intro hx hne
    exact not_mem_markAll pre rs.mem pk.id hx hne
  · intro q rest v hv
    exact runPages_cons_ok env rs q rest v hv (hsave _)

/-- What claim C10 asserts of a block-less or empty-rendering page:
`migratePage` succeeds dispatching nothing (the empty dispatch list), the
run loop marks and persists the page's id before continuing with the
remaining pages, and the resume filter then excludes the page. -/
def emptyPageSpec (env : Env) (rs : RunState) (p : Page) : Prop :=
  migratePageM env p = Except.ok [] ∧
  (∀ rest, runPages env rs (p :: rest) =
      ((runPages env ⟨markProcessed rs.mem p.id, markProcessed rs.mem p.id⟩ rest).1,
       p.id :: (runPages env ⟨markProcessed rs.mem p.id, markProcessed rs.mem p.id⟩ rest).2.1,
       (runPages env ⟨markProcessed rs.mem p.id, markProcessed rs.mem p.id⟩ rest).2.2)) ∧
  isProcessed (markProcessed rs.mem p.id) p.id = true ∧
  filterProcessedPages (markProcessed rs.mem p.id) [p] = []

/-- Claim C10: a page with no blocks, or whose rendered markdown is empty,
dispatches no memo yet migrates successfully; the orchestrator records and
persists its id, and a later resume run filters it out. -/
theorem c10_empty_page_skipped (env : Env) (rs : RunState) (p : Page)
    (hsave : ∀ s, env.saveOk s = true)
    (hempty : env.fetchBlocks p.id = Except.ok [] ∨
      ∃ blocks, env.fetchBlocks p.id = Except.ok blocks ∧
        renderedMarkdown env p blocks = "") :
    emptyPageSpec env rs p := by
  have hok : migratePageM env p = Except.ok [] := by
    rcases hempty with h | ⟨blocks, hb, hmd⟩
    · unfold migratePageM
      rw [h]
      rfl
    · unfold migratePageM
      rw [hb]
      by_cases hbe : blocks.isEmpty
      · show (if blocks.isEmpty = true then _ else _) = _
        rw [if_pos hbe]
      · show (if blocks.isEmpty = true then _ else _) = _
        rw [if_neg hbe, if_pos hmd]
  refine ⟨hok, ?_, ?_, ?_⟩
  · intro rest
    exact runPages_cons_ok env rs p rest [] hok (hsave _)
  · have hm := mem_markProcessed_self rs.mem p.id
    simp [isProcessed, hm]
  · have hm := mem_markProcessed_self rs.mem p.id
    unfold filterProcessedPages
    simp [isProcessed, hm]

/-! ## Concrete environments for the orchestration witnesses -/

/-- The title run of the concrete witness page. -/
def wTitleRun : RichText :=
  { type := "text", text := none, annots := none, plainText := "Note", href := none }

/-- The body run of the concrete witness block. -/
def wBodyRun : RichText :=
  { type := "text", text := none, annots := none, plainText := "Milk", href := none }

/-- A concrete page titled "Note". -/
def wNotePage : Page :=
  { id := "p1", createdTime := "", parent := ParentRef.workspace,
    properties := [("title", { id := "t", type := "title", title := [wTitleRun] })] }

/-- A concrete one-run paragraph block. -/
def wParaBlock : Block :=
  { type := "paragraph", paragraph := some { richText := [wBodyRun], color := "" } }

/-- A one-page environment where everything succeeds. -/
def wEnvRun : Env :=
  { searchResult := Except.ok [wNotePage]
    fetchBlocks := fun _ => Except.ok [wParaBlock]
    fetchPage := fun _ => Except.error "nf"
    fetchDb := fun _ => Except.error "nf"
    createMemo := fun _ _ => Except.ok ()
    saveOk := fun _ => true
    tm := { parse := fun _ => none, formatMeta := fun _ => "", now := 0 } }

/-- Witness for C3: the successful one-page run marks "p1"; the resumed
run over the same environment processes zero documents. -/
theorem c3_resume_second_run_empty_witness :
    migrateModel wEnvRun ⟨false, []⟩ ⟨[], []⟩ = (⟨["p1"], ["p1"]⟩, ["p1"], none) ∧
    migrateModel wEnvRun ⟨true, []⟩ ⟨["p1"], ["p1"]⟩ = (⟨["p1"], ["p1"]⟩, [], none) := by
  have h1 : migrateModel wEnvRun ⟨false, []⟩ ⟨[], []⟩ =
      (⟨["p1"], ["p1"]⟩, ["p1"], none) := by decide
  exact ⟨h1, c3_resume_second_run_empty wEnvRun [] ⟨[], []⟩ ⟨["p1"], ["p1"]⟩ ["p1"] h1⟩

/-- A concrete page whose blocks fetch fails. -/
def wBadPage : Page :=
  { id := "p2", createdTime := "", parent := ParentRef.workspace, properties := [] }

/-- An environment where page "p2" fails its blocks fetch. -/
def wEnvFail : Env :=
  { searchResult := Except.ok [wNotePage, wBadPage]
    fetchBlocks := fun i => if i = "p2" then Except.error "boom" else Except.ok [wParaBlock]
    fetchPage := fun _ => Except.error "nf"
    fetchDb := fun _ => Except.error "nf"
    createMemo := fun _ _ => Except.ok ()
    saveOk := fun _ => true
    tm := { parse := fun _ => none, formatMeta := fun _ => "", now := 0 } }

/-- Witness for C4: a run where the second page's fetch fails aborts with
that page's title and id, after persisting the first page's id. -/
theorem c4_fail_fast_and_persist_witness :
    ((⟨[], []⟩ : RunState).mem = (⟨[], []⟩ : RunState).disk) ∧
    (∀ s, wEnvFail.saveOk s = true) ∧
    migratePageM wEnvFail wBadPage = Except.error "boom" ∧
    runPages wEnvFail ⟨[], []⟩ ([wNotePage] ++ wBadPage :: []) =
      (⟨markAll [] [wNotePage], markAll [] [wNotePage]⟩,
        [wNotePage].map (fun p => p.id),
        some (RunErr.pageErr (getPageTitle wBadPage) wBadPage.id "boom")) := by
  have hsucc : ∀ p ∈ [wNotePage], ∃ v, migratePageM wEnvFail p = Except.ok v := by
    intro p hp
    rw [List.mem_singleton] at hp
    subst hp
    exact ⟨[(("# Note\n\nMilk").data, 0)], rfl⟩
  have hfail : migratePageM wEnvFail wBadPage = Except.error "boom" := rfl
  refine ⟨rfl, fun _ => rfl, hfail, ?_⟩
  exact (c4_fail_fast_and_persist wEnvFail ⟨[], []⟩ [wNotePage] [] wBadPage "boom"
    rfl (fun _ => rfl) hsucc hfail).1

/-- A concrete page with no content blocks. -/
def wEmptyPage : Page :=
  { id := "p0", createdTime := "", parent := ParentRef.workspace, properties := [] }

/-- An environment whose only page has no blocks. -/
def wEnvEmpty : Env :=
  { searchResult := Except.ok [wEmptyPage]
    fetchBlocks := fun _ => Except.ok []
    fetchPage := fun _ => Except.error "nf"
    fetchDb := fun _ => Except.error "nf"
    createMemo := fun _ _ => Except.ok ()
    saveOk := fun _ => true
    tm := { parse := fun _ => none, formatMeta := fun _ => "", now := 0 } }

/-- Witness for C10 at a concrete block-less page. -/
theorem c10_empty_page_skipped_witness :
    (∀ s, wEnvEmpty.saveOk s = true) ∧
    wEnvEmpty.fetchBlocks wEmptyPage.id = Except.ok [] ∧
    emptyPageSpec wEnvEmpty ⟨[], []⟩ wEmptyPage :=
  ⟨fun _ => rfl, rfl,
    c10_empty_page_skipped wEnvEmpty ⟨[], []⟩ wEmptyPage (fun _ => rfl) (Or.inl rfl)⟩

end N2M
